import Mathlib

/-!
Verification of the claim lifecycle data model of the ScaleCarInsurance
single-page application: the Claim Store (a reducer over a state holding a
claims table and a drafts table) and the Persistence Bridge (load/save of the
two tables through browser local storage).

Shallow-embedding conventions:
* ISO-8601 timestamp strings are modeled as natural numbers (equal-format
  ISO strings compare lexicographically exactly as the instants they denote).
* JavaScript numbers holding costs, years, confidences and durations are
  modeled as naturals (all values produced by the application are
  non-negative integers).
* A TypeScript value of type Partial of Claim is modeled by a structure with
  one Option field per Claim field (a key absent from the object is none).
* A JavaScript Set of strings is modeled as a duplicate-free list of strings
  in insertion order, which is exactly the observable state of a JS Set.
* Local storage text cells are modeled by what they parse to: a cell is
  absent, corrupt (JSON.parse throws), or parses to the stored structure;
  JSON.parse after JSON.stringify returns the stringified structure.
-/

/-- Damage type enumeration from the DamageAssessment interface. -/
inductive DamageType
  | scratch | dent | structural | glass | paint
deriving DecidableEq

/-- Severity enumeration from the DamageAssessment interface. -/
inductive Severity
  | minor | moderate | severe
deriving DecidableEq

/-- Claim lifecycle status enumeration. -/
inductive Status
  | pending | processing | approved | rejected
deriving DecidableEq

/-- One AI damage assessment item (interface DamageAssessment). -/
structure DamageAssessment where
  id : String
  type : DamageType
  severity : Severity
  location : String
  estimatedCost : Nat
  confidence : Nat
deriving DecidableEq

/-- A submitted insurance claim (interface Claim). -/
structure Claim where
  id : String
  policyNumber : String
  customerName : String
  customerEmail : String
  customerPhone : String
  vehicleMake : String
  vehicleModel : String
  vehicleYear : Nat
  accidentDate : String
  accidentDescription : String
  photos : List String
  videos : List String
  status : Status
  damageAssessments : List DamageAssessment
  totalEstimatedCost : Nat
  repairShopId : Option String
  createdAt : Nat
  updatedAt : Nat
  aiAnalysisComplete : Bool
  processingTime : Option Nat
deriving DecidableEq

/-- The claim fields a caller passes to addClaim: all of Claim except id,
createdAt and updatedAt (the TypeScript Omit type in the addClaim
signature). -/
structure ClaimData where
  policyNumber : String
  customerName : String
  customerEmail : String
  customerPhone : String
  vehicleMake : String
  vehicleModel : String
  vehicleYear : Nat
  accidentDate : String
  accidentDescription : String
  photos : List String
  videos : List String
  status : Status
  damageAssessments : List DamageAssessment
  totalEstimatedCost : Nat
  repairShopId : Option String
  aiAnalysisComplete : Bool
  processingTime : Option Nat
deriving DecidableEq

/-- A Partial of Claim: each field optionally present. Used both for the
updateClaim patch argument and for the formData field of a draft. -/
structure ClaimPatch where
  id : Option String := none
  policyNumber : Option String := none
  customerName : Option String := none
  customerEmail : Option String := none
  customerPhone : Option String := none
  vehicleMake : Option String := none
  vehicleModel : Option String := none
  vehicleYear : Option Nat := none
  accidentDate : Option String := none
  accidentDescription : Option String := none
  photos : Option (List String) := none
  videos : Option (List String) := none
  status : Option Status := none
  damageAssessments : Option (List DamageAssessment) := none
  totalEstimatedCost : Option Nat := none
  repairShopId : Option (Option String) := none
  createdAt : Option Nat := none
  updatedAt : Option Nat := none
  aiAnalysisComplete : Option Bool := none
  processingTime : Option (Option Nat) := none
deriving DecidableEq

/-- A JavaScript Set of strings: its observable state is the duplicate-free
list of its elements in insertion order. -/
abbrev StrSet := { l : List String // l.Nodup }

/-- One step of JS Set construction: Set.add appends the element if absent. -/
def setAdd (l : List String) (x : String) : List String :=
  if x ∈ l then l else l ++ [x]

/-- The element list built by iterating Set.add over the input, which is
what the JS constructor new Set(xs) does. -/
def jsSetList (xs : List String) : List String :=
  xs.foldl setAdd []

theorem setAdd_nodup {l : List String} (h : l.Nodup) (x : String) :
    (setAdd l x).Nodup := by
  unfold setAdd
  split
  · exact h
  · refine h.append (List.nodup_singleton x) ?_
    intro a ha hb
    simp at hb
    subst hb
    exact absurd ha (by assumption)

theorem foldl_setAdd_nodup (xs : List String) {acc : List String}
    (h : acc.Nodup) : (xs.foldl setAdd acc).Nodup := by
  induction xs generalizing acc with
  | nil => exact h
  | cons x xs ih => exact ih (setAdd_nodup h x)

theorem jsSetList_nodup (xs : List String) : (jsSetList xs).Nodup :=
  foldl_setAdd_nodup xs List.nodup_nil

/-- The JS constructor new Set(xs) as a StrSet. -/
def jsSet (xs : List String) : StrSet :=
  ⟨jsSetList xs, jsSetList_nodup xs⟩

/-- A draft claim under construction (interface InProgressClaim). -/
structure InProgressClaim where
  id : String
  formData : ClaimPatch
  photos : List String
  videos : List String
  damageAssessments : List DamageAssessment
  analysisComplete : Bool
  approvedAssessments : StrSet
  lastSaved : Nat
deriving DecidableEq

/-- The global state held by the claims reducer (interface ClaimsState). -/
structure ClaimsState where
  claims : List Claim
  inProgressClaims : List InProgressClaim
  loading : Bool
  error : Option String
deriving DecidableEq

/-- The default state on first load (constant initialState). -/
def initialState : ClaimsState :=
  { claims := [], inProgressClaims := [], loading := false, error := none }

/-- Shallow merge of a Partial of Claim into a claim followed by the
updatedAt refresh, exactly as the UPDATE_CLAIM branch of the reducer builds
the object: spread of the old claim, then spread of the updates, then the
updatedAt field set to the current instant (so an updatedAt inside the
updates never survives). -/
def applyPatch (c : Claim) (p : ClaimPatch) (now : Nat) : Claim :=
  { id := p.id.getD c.id
    policyNumber := p.policyNumber.getD c.policyNumber
    customerName := p.customerName.getD c.customerName
    customerEmail := p.customerEmail.getD c.customerEmail
    customerPhone := p.customerPhone.getD c.customerPhone
    vehicleMake := p.vehicleMake.getD c.vehicleMake
    vehicleModel := p.vehicleModel.getD c.vehicleModel
    vehicleYear := p.vehicleYear.getD c.vehicleYear
    accidentDate := p.accidentDate.getD c.accidentDate
    accidentDescription := p.accidentDescription.getD c.accidentDescription
    photos := p.photos.getD c.photos
    videos := p.videos.getD c.videos
    status := p.status.getD c.status
    damageAssessments := p.damageAssessments.getD c.damageAssessments
    totalEstimatedCost := p.totalEstimatedCost.getD c.totalEstimatedCost
    repairShopId := p.repairShopId.getD c.repairShopId
    createdAt := p.createdAt.getD c.createdAt
    updatedAt := now
    aiAnalysisComplete := p.aiAnalysisComplete.getD c.aiAnalysisComplete
    processingTime := p.processingTime.getD c.processingTime }

/-- The action union dispatched to the reducer (type ClaimsAction). The
UPDATE_CLAIM constructor carries the instant at which the reducer runs,
modeling the new Date() call inside the reducer branch. -/
inductive ClaimsAction
  | ADD_CLAIM (payload : Claim)
  | UPDATE_CLAIM (id : String) (updates : ClaimPatch) (now : Nat)
  | SET_LOADING (payload : Bool)
  | SET_ERROR (payload : Option String)
  | LOAD_CLAIMS (payload : List Claim)
  | SAVE_IN_PROGRESS (payload : InProgressClaim)
  | DELETE_IN_PROGRESS (payload : String)
  | LOAD_IN_PROGRESS (payload : List InProgressClaim)

/-- The claims reducer, branch for branch from the source switch. -/
def claimsReducer (state : ClaimsState) (action : ClaimsAction) : ClaimsState :=
  match action with
  | .ADD_CLAIM payload =>
      { state with claims := payload :: state.claims }
  | .UPDATE_CLAIM id updates now =>
      { state with claims :=
          state.claims.map fun claim =>
            if claim.id = id then applyPatch claim updates now else claim }
  | .SET_LOADING payload =>
      { state with loading := payload }
  | .SET_ERROR payload =>
      { state with error := payload }
  | .LOAD_CLAIMS payload =>
      { state with claims := payload }
  | .SAVE_IN_PROGRESS payload =>
      { state with inProgressClaims :=
          (state.inProgressClaims.filter fun claim => claim.id ≠ payload.id)
            ++ [payload] }
  | .DELETE_IN_PROGRESS payload =>
      { state with inProgressClaims :=
          state.inProgressClaims.filter fun claim => claim.id ≠ payload }
  | .LOAD_IN_PROGRESS payload =>
      { state with inProgressClaims := payload }

/-- The character for one decimal digit (value below ten). -/
def digitChar (n : Nat) : Char := Char.ofNat (48 + n)

/-- The decimal digit characters of a natural, most significant first: the
text JavaScript template interpolation produces for the Date.now() value. -/
def natDigits (n : Nat) : List Char :=
  if _h : n < 10 then [digitChar n]
  else natDigits (n / 10) ++ [digitChar (n % 10)]
decreasing_by exact Nat.div_lt_self (by omega) (by omega)

/-- The generated claim identifier: the template
claim underscore Date.now() underscore random-suffix from addClaim, with the
timestamp and the random base-36 suffix as parameters. -/
def genId (ts : Nat) (rand : List Char) : String :=
  ⟨"claim_".toList ++ natDigits ts ++ '_' :: rand⟩

/-- The new Claim record built inside addClaim: the caller fields plus the
generated id and both timestamps set to the current instant. -/
def mkNewClaim (cd : ClaimData) (ts : Nat) (rand : List Char) : Claim :=
  { id := genId ts rand
    policyNumber := cd.policyNumber
    customerName := cd.customerName
    customerEmail := cd.customerEmail
    customerPhone := cd.customerPhone
    vehicleMake := cd.vehicleMake
    vehicleModel := cd.vehicleModel
    vehicleYear := cd.vehicleYear
    accidentDate := cd.accidentDate
    accidentDescription := cd.accidentDescription
    photos := cd.photos
    videos := cd.videos
    status := cd.status
    damageAssessments := cd.damageAssessments
    totalEstimatedCost := cd.totalEstimatedCost
    repairShopId := cd.repairShopId
    createdAt := ts
    updatedAt := ts
    aiAnalysisComplete := cd.aiAnalysisComplete
    processingTime := cd.processingTime }

/-- Store operation addClaim: build the new claim and dispatch ADD_CLAIM. -/
def addClaim (s : ClaimsState) (cd : ClaimData) (ts : Nat) (rand : List Char) :
    ClaimsState :=
  claimsReducer s (.ADD_CLAIM (mkNewClaim cd ts rand))

/-- Store operation updateClaim: dispatch UPDATE_CLAIM. -/
def updateClaim (s : ClaimsState) (id : String) (updates : ClaimPatch)
    (now : Nat) : ClaimsState :=
  claimsReducer s (.UPDATE_CLAIM id updates now)

/-- Store operation getClaim: pure find over the claims table. -/
def getClaim (s : ClaimsState) (id : String) : Option Claim :=
  s.claims.find? fun claim => claim.id = id

/-- Store operation saveInProgressClaim: dispatch SAVE_IN_PROGRESS. -/
def saveInProgressClaim (s : ClaimsState) (d : InProgressClaim) : ClaimsState :=
  claimsReducer s (.SAVE_IN_PROGRESS d)

/-- Store operation getInProgressClaim: pure find over the drafts table. -/
def getInProgressClaim (s : ClaimsState) (id : String) : Option InProgressClaim :=
  s.inProgressClaims.find? fun claim => claim.id = id

/-- Store operation deleteInProgressClaim: dispatch DELETE_IN_PROGRESS. -/
def deleteInProgressClaim (s : ClaimsState) (id : String) : ClaimsState :=
  claimsReducer s (.DELETE_IN_PROGRESS id)

/-- A draft as it sits in storage: identical to InProgressClaim except that
the approvedAssessments set has been encoded as an array. -/
structure StoredDraft where
  id : String
  formData : ClaimPatch
  photos : List String
  videos : List String
  damageAssessments : List DamageAssessment
  analysisComplete : Bool
  approvedAssessments : List String
  lastSaved : Nat
deriving DecidableEq

/-- The save-side conversion of one draft: spread plus Array.from on the
approvedAssessments set (Array.from lists a JS Set in insertion order). -/
def storeDraft (d : InProgressClaim) : StoredDraft :=
  { id := d.id
    formData := d.formData
    photos := d.photos
    videos := d.videos
    damageAssessments := d.damageAssessments
    analysisComplete := d.analysisComplete
    approvedAssessments := d.approvedAssessments.val
    lastSaved := d.lastSaved }

/-- The load-side conversion of one draft: spread plus new Set(array) on the
serialized approvedAssessments array. -/
def unstoreDraft (sd : StoredDraft) : InProgressClaim :=
  { id := sd.id
    formData := sd.formData
    photos := sd.photos
    videos := sd.videos
    damageAssessments := sd.damageAssessments
    analysisComplete := sd.analysisComplete
    approvedAssessments := jsSet sd.approvedAssessments
    lastSaved := sd.lastSaved }

/-- A local-storage text cell modeled by its parse result: the text either
fails JSON.parse or parses to a structure of type a. -/
inductive StoredText (a : Type)
  | corrupt
  | parsed (v : a)
deriving DecidableEq

/-- The two fixed local-storage keys: the claims cell and the in-progress
cell; none models an absent key. -/
structure Storage where
  claimsCell : Option (StoredText (List Claim))
  draftsCell : Option (StoredText (List StoredDraft))
deriving DecidableEq

/-- saveToStorage: JSON.stringify the claims table into the claims key, and
the drafts table — with each approvedAssessments set converted to an
array — into the in-progress key (the success path; a thrown quota error is
caught and logged, leaving storage unchanged). -/
def saveToStorage (s : ClaimsState) : Storage :=
  { claimsCell := some (.parsed s.claims)
    draftsCell := some (.parsed (s.inProgressClaims.map storeDraft)) }

/-- loadFromStorage: read both keys inside one try block. An absent key is
skipped (no dispatch). A corrupt claims cell throws before anything is
dispatched, so the whole load is a no-op; a corrupt drafts cell throws after
LOAD_CLAIMS was already dispatched, so only the drafts dispatch is lost.
Loaded drafts rebuild their approvedAssessments set via new Set(array).
The function catches every failure, so it never throws to its caller. -/
def loadFromStorage (st : Storage) (s : ClaimsState) : ClaimsState :=
  match st.claimsCell with
  | some .corrupt => s
  | some (.parsed cs) =>
      let s1 := claimsReducer s (.LOAD_CLAIMS cs)
      match st.draftsCell with
      | some .corrupt => s1
      | some (.parsed ds) =>
          claimsReducer s1 (.LOAD_IN_PROGRESS (ds.map unstoreDraft))
      | none => s1
  | none =>
      match st.draftsCell with
      | some .corrupt => s
      | some (.parsed ds) =>
          claimsReducer s (.LOAD_IN_PROGRESS (ds.map unstoreDraft))
      | none => s

theorem setAdd_of_not_mem {l : List String} {x : String} (h : x ∉ l) :
    setAdd l x = l ++ [x] := by
  simp [setAdd, h]

theorem foldl_setAdd_of_nodup : ∀ (xs : List String) (acc : List String),
    xs.Nodup → (∀ x ∈ xs, x ∉ acc) → xs.foldl setAdd acc = acc ++ xs := by
  intro xs
  induction xs with
  | nil => intro acc _ _; simp
  | cons x xs ih =>
      intro acc hnd hdisj
      have hx : x ∉ acc := hdisj x (by simp)
      have hxs : ∀ y ∈ xs, y ∉ acc ++ [x] := by
        intro y hy
        simp only [List.mem_append, List.mem_singleton]
        push_neg
        refine ⟨hdisj y (by simp [hy]), ?_⟩
        intro hyx
        subst hyx
        exact absurd hy (List.nodup_cons.mp hnd).1
      have := ih (acc ++ [x]) (List.nodup_cons.mp hnd).2 hxs
      simp only [List.foldl_cons, setAdd_of_not_mem hx, this, List.append_assoc,
        List.singleton_append]

theorem jsSetList_of_nodup {xs : List String} (h : xs.Nodup) :
    jsSetList xs = xs := by
  have := foldl_setAdd_of_nodup xs [] h (by simp)
  simpa [jsSetList] using this

theorem jsSet_roundTrip (s : StrSet) : jsSet s.val = s :=
  Subtype.ext (jsSetList_of_nodup s.prop)

theorem unstoreDraft_storeDraft (d : InProgressClaim) :
    unstoreDraft (storeDraft d) = d := by
  cases d with
  | mk id formData photos videos damageAssessments analysisComplete approved lastSaved =>
      simp [unstoreDraft, storeDraft, jsSet_roundTrip]

theorem natDigits_lt {n : Nat} (h : n < 10) : natDigits n = [digitChar n] := by
  unfold natDigits
  simp [h]

theorem natDigits_ge {n : Nat} (h : ¬ n < 10) :
    natDigits n = natDigits (n / 10) ++ [digitChar (n % 10)] := by
  conv_lhs => rw [natDigits]
  simp [h]

theorem natDigits_ne_nil (n : Nat) : natDigits n ≠ [] := by
  by_cases h : n < 10
  · simp [natDigits_lt h]
  · simp [natDigits_ge h]

theorem digitChar_ne_underscore {k : Nat} (h : k < 10) : digitChar k ≠ '_' := by
  interval_cases k <;> decide

theorem digitChar_inj {a b : Nat} (ha : a < 10) (hb : b < 10)
    (h : digitChar a = digitChar b) : a = b := by
  interval_cases a <;> interval_cases b <;> first | rfl | exact absurd h (by decide)

theorem not_underscore_mem_natDigits (n : Nat) : '_' ∉ natDigits n := by
  induction n using Nat.strong_induction_on with
  | _ n ih =>
      by_cases h : n < 10
      · simp only [natDigits_lt h, List.mem_singleton]
        exact fun heq => digitChar_ne_underscore h heq.symm
      · simp only [natDigits_ge h, List.mem_append, List.mem_singleton]
        push_neg
        refine ⟨ih (n / 10) (Nat.div_lt_self (by omega) (by omega)), ?_⟩
        exact fun heq => digitChar_ne_underscore (Nat.mod_lt n (by omega)) heq.symm

theorem natDigits_inj : ∀ (m n : Nat), natDigits m = natDigits n → m = n := by
  intro m
  induction m using Nat.strong_induction_on with
  | _ m ih =>
      intro n h
      by_cases hm : m < 10 <;> by_cases hn : n < 10
      · rw [natDigits_lt hm, natDigits_lt hn] at h
        exact digitChar_inj hm hn (List.singleton_inj.mp h)
      · rw [natDigits_lt hm, natDigits_ge hn] at h
        cases hne : natDigits (n / 10) with
        | nil => exact absurd hne (natDigits_ne_nil _)
        | cons c cs => rw [hne] at h; simp at h
      · rw [natDigits_ge hm, natDigits_lt hn] at h
        cases hne : natDigits (m / 10) with
        | nil => exact absurd hne (natDigits_ne_nil _)
        | cons c cs => rw [hne] at h; simp at h
      · rw [natDigits_ge hm, natDigits_ge hn] at h
        have h' := congrArg List.reverse h
        simp only [List.reverse_append, List.reverse_singleton,
          List.singleton_append, List.cons.injEq] at h'
        have hmod : m % 10 = n % 10 :=
          digitChar_inj (Nat.mod_lt m (by omega)) (Nat.mod_lt n (by omega)) h'.1
        have hdiv : m / 10 = n / 10 :=
          ih (m / 10) (Nat.div_lt_self (by omega) (by omega)) (n / 10)
            (List.reverse_injective h'.2)
        omega

theorem sep_split {α : Type} {x : α} :
    ∀ (a b u v : List α), x ∉ a → x ∉ b → a ++ x :: u = b ++ x :: v →
      a = b ∧ u = v := by
  intro a
  induction a with
  | nil =>
      intro b u v _ hb h
      cases b with
      | nil => simpa using h
      | cons y bs =>
          simp only [List.nil_append, List.cons_append, List.cons.injEq] at h
          exact absurd (h.1 ▸ List.mem_cons_self y bs) (h.1 ▸ hb)
  | cons z as ih =>
      intro b u v ha hb h
      cases b with
      | nil =>
          simp only [List.cons_append, List.nil_append, List.cons.injEq] at h
          exact absurd (h.1 ▸ List.mem_cons_self z as) (h.1 ▸ ha)
      | cons y bs =>
          simp only [List.cons_append, List.cons.injEq] at h
          obtain ⟨hzy, htail⟩ := h
          have := ih bs u v (fun hx => ha (List.mem_cons_of_mem z hx))
            (fun hx => hb (List.mem_cons_of_mem y hx)) htail
          exact ⟨by rw [hzy, this.1], this.2⟩

theorem genId_inj {t1 t2 : Nat} {r1 r2 : List Char}
    (h : genId t1 r1 = genId t2 r2) : t1 = t2 ∧ r1 = r2 := by
  have hd : "claim_".toList ++ (natDigits t1 ++ '_' :: r1) =
      "claim_".toList ++ (natDigits t2 ++ '_' :: r2) := by
    have := congrArg String.toList h
    simpa [genId, List.append_assoc] using this
  have hmid := List.append_cancel_left hd
  have := sep_split (natDigits t1) (natDigits t2) r1 r2
    (not_underscore_mem_natDigits t1) (not_underscore_mem_natDigits t2) hmid
  exact ⟨natDigits_inj t1 t2 this.1, this.2⟩

theorem genId_ne_empty (ts : Nat) (rand : List Char) : genId ts rand ≠ "" := by
  intro h
  have := congrArg String.toList h
  simp [genId] at this

/-- The nine-field form buffer shared by the NewClaim and EditClaim pages. -/
structure ClaimForm where
  policyNumber : String
  customerName : String
  customerEmail : String
  customerPhone : String
  vehicleMake : String
  vehicleModel : String
  vehicleYear : Nat
  accidentDate : String
  accidentDescription : String
deriving DecidableEq

/-- validateForm from NewClaim and EditClaim: the submission is blocked
unless the eight checked fields are non-empty (vehicleYear, a number, is
not checked). -/
def validateForm (f : ClaimForm) : Bool :=
  f.policyNumber ≠ "" && f.customerName ≠ "" && f.customerEmail ≠ "" &&
    f.customerPhone ≠ "" && f.vehicleMake ≠ "" && f.vehicleModel ≠ "" &&
    f.accidentDate ≠ "" && f.accidentDescription ≠ ""

/-- The reduce over assessments accumulating estimatedCost, as both
submit handlers compute it. -/
def sumCosts (l : List DamageAssessment) : Nat :=
  l.foldl (fun sum a => sum + a.estimatedCost) 0

theorem foldl_cost (l : List DamageAssessment) :
    ∀ acc : Nat, l.foldl (fun sum a => sum + a.estimatedCost) acc =
      acc + (l.map fun a => a.estimatedCost).sum := by
  induction l with
  | nil => intro acc; simp
  | cons a l ih => intro acc; simp [ih]; omega

theorem sumCosts_eq (l : List DamageAssessment) :
    sumCosts l = (l.map fun a => a.estimatedCost).sum := by
  simpa [sumCosts] using foldl_cost l 0

/-- The fixed draft session identifier of the NewClaim workflow. -/
def sessionId : String := "new-claim-session"

/-- The claim payload built inside the NewClaim handleSubmit: only approved
assessments are kept, the total is their cost sum, status starts pending,
and the default repair shop is assigned. -/
def newClaimPayload (f : ClaimForm) (photos videos : List String)
    (assessments : List DamageAssessment) (approved : StrSet)
    (analysisComplete isAnalyzing : Bool) : ClaimData :=
  let approvedAssessmentsList :=
    assessments.filter fun a => a.id ∈ approved.val
  { policyNumber := f.policyNumber
    customerName := f.customerName
    customerEmail := f.customerEmail
    customerPhone := f.customerPhone
    vehicleMake := f.vehicleMake
    vehicleModel := f.vehicleModel
    vehicleYear := f.vehicleYear
    accidentDate := f.accidentDate
    accidentDescription := f.accidentDescription
    photos := photos
    videos := videos
    status := .pending
    damageAssessments := approvedAssessmentsList
    totalEstimatedCost := sumCosts approvedAssessmentsList
    repairShopId := some "shop_001"
    aiAnalysisComplete := analysisComplete
    processingTime := if isAnalyzing then none else some 3 }

/-- The NewClaim handleSubmit: validate, add the claim built from the form
and the approved assessments, then clear the saved draft of the session. -/
def newClaimHandleSubmit (s : ClaimsState) (f : ClaimForm)
    (photos videos : List String) (assessments : List DamageAssessment)
    (approved : StrSet) (analysisComplete isAnalyzing : Bool)
    (ts : Nat) (rand : List Char) : ClaimsState :=
  if validateForm f then
    deleteInProgressClaim
      (addClaim s
        (newClaimPayload f photos videos assessments approved
          analysisComplete isAnalyzing) ts rand)
      sessionId
  else s

/-- The update object built inside the EditClaim handleSubmit: the form
fields, the media, ALL damage assessments (the list is not filtered), the
total cost computed over the approved assessments only, the analysis flag
and a caller-supplied updatedAt (which the reducer overrides). -/
def editClaimPatch (f : ClaimForm) (photos videos : List String)
    (assessments : List DamageAssessment) (approved : StrSet)
    (analysisComplete : Bool) (now : Nat) : ClaimPatch :=
  { policyNumber := some f.policyNumber
    customerName := some f.customerName
    customerEmail := some f.customerEmail
    customerPhone := some f.customerPhone
    vehicleMake := some f.vehicleMake
    vehicleModel := some f.vehicleModel
    vehicleYear := some f.vehicleYear
    accidentDate := some f.accidentDate
    accidentDescription := some f.accidentDescription
    photos := some photos
    videos := some videos
    damageAssessments := some assessments
    totalEstimatedCost :=
      some (sumCosts (assessments.filter fun a => a.id ∈ approved.val))
    aiAnalysisComplete := some analysisComplete
    updatedAt := some now }

/-- The EditClaim handleSubmit: return early unless the form validates and
the addressed claim exists, otherwise dispatch the update. -/
def editClaimHandleSubmit (s : ClaimsState) (eid : String) (f : ClaimForm)
    (photos videos : List String) (assessments : List DamageAssessment)
    (approved : StrSet) (analysisComplete : Bool) (now : Nat) : ClaimsState :=
  if validateForm f && (getClaim s eid).isSome then
    updateClaim s eid
      (editClaimPatch f photos videos assessments approved analysisComplete now)
      now
  else s

/-- One Store mutation, for forming operation sequences. -/
inductive StoreOp
  | add (cd : ClaimData) (ts : Nat) (rand : List Char)
  | update (id : String) (p : ClaimPatch) (now : Nat)
  | saveIP (d : InProgressClaim)
  | deleteIP (id : String)

/-- Apply one Store mutation. -/
def applyOp (s : ClaimsState) : StoreOp → ClaimsState
  | .add cd ts rand => addClaim s cd ts rand
  | .update id p now => updateClaim s id p now
  | .saveIP d => saveInProgressClaim s d
  | .deleteIP id => deleteInProgressClaim s id

/-- All claims in the state respect createdAt ≤ updatedAt and carry no
timestamp beyond the clock value t. -/
def TsInv (t : Nat) (s : ClaimsState) : Prop :=
  ∀ c ∈ s.claims, c.createdAt ≤ c.updatedAt ∧ c.updatedAt ≤ t

/-- A run of addClaim and updateClaim operations under a nondecreasing wall
clock (each operation happens no earlier than the clock value before it)
whose update patches never carry a createdAt key. -/
inductive MonoRun : Nat → ClaimsState → List StoreOp → ClaimsState → Prop
  | nil (t : Nat) (s : ClaimsState) : MonoRun t s [] s
  | add {t : Nat} {s : ClaimsState} {ops : List StoreOp} {s1 : ClaimsState}
      (cd : ClaimData) (ts : Nat) (rand : List Char) (hts : t ≤ ts)
      (h : MonoRun ts (applyOp s (.add cd ts rand)) ops s1) :
      MonoRun t s (StoreOp.add cd ts rand :: ops) s1
  | update {t : Nat} {s : ClaimsState} {ops : List StoreOp} {s1 : ClaimsState}
      (id : String) (p : ClaimPatch) (now : Nat) (hnow : t ≤ now)
      (hp : p.createdAt = none)
      (h : MonoRun now (applyOp s (.update id p now)) ops s1) :
      MonoRun t s (StoreOp.update id p now :: ops) s1

/-- A status is terminal when it is approved or rejected. -/
def IsTerminal (st : Status) : Prop :=
  st = Status.approved ∨ st = Status.rejected

instance (st : Status) : Decidable (IsTerminal st) := by
  unfold IsTerminal; infer_instance

/-- A run of Store mutations obeying the documented caller contract: an
update patch never carries a status key when a claim in a terminal status
matches the addressed id. -/
inductive CompliantRun : ClaimsState → List StoreOp → ClaimsState → Prop
  | nil (s : ClaimsState) : CompliantRun s [] s
  | add {s : ClaimsState} {ops : List StoreOp} {s1 : ClaimsState}
      (cd : ClaimData) (ts : Nat) (rand : List Char)
      (h : CompliantRun (applyOp s (.add cd ts rand)) ops s1) :
      CompliantRun s (StoreOp.add cd ts rand :: ops) s1
  | update {s : ClaimsState} {ops : List StoreOp} {s1 : ClaimsState}
      (id : String) (p : ClaimPatch) (now : Nat)
      (hc : ∀ c ∈ s.claims, c.id = id → IsTerminal c.status → p.status = none)
      (h : CompliantRun (applyOp s (.update id p now)) ops s1) :
      CompliantRun s (StoreOp.update id p now :: ops) s1
  | saveIP {s : ClaimsState} {ops : List StoreOp} {s1 : ClaimsState}
      (d : InProgressClaim)
      (h : CompliantRun (applyOp s (.saveIP d)) ops s1) :
      CompliantRun s (StoreOp.saveIP d :: ops) s1
  | deleteIP {s : ClaimsState} {ops : List StoreOp} {s1 : ClaimsState}
      (id : String)
      (h : CompliantRun (applyOp s (.deleteIP id)) ops s1) :
      CompliantRun s (StoreOp.deleteIP id :: ops) s1

/-- A concrete form for witnesses (all checked fields non-empty). -/
def fixtureForm : ClaimForm :=
  { policyNumber := "POL-1", customerName := "A", customerEmail := "a@x.com"
    customerPhone := "555", vehicleMake := "Toyota", vehicleModel := "Camry"
    vehicleYear := 2020, accidentDate := "2024-01-01"
    accidentDescription := "rear-ended" }

/-- A concrete addClaim payload for witnesses. -/
def fixtureData : ClaimData :=
  { policyNumber := "POL-1", customerName := "A", customerEmail := "a@x.com"
    customerPhone := "555", vehicleMake := "Toyota", vehicleModel := "Camry"
    vehicleYear := 2020, accidentDate := "2024-01-01"
    accidentDescription := "rear-ended", photos := [], videos := []
    status := .pending, damageAssessments := [], totalEstimatedCost := 0
    repairShopId := none, aiAnalysisComplete := false, processingTime := none }

/-- A concrete stored claim for witnesses. -/
def fixtureClaim : Claim :=
  { id := "c1", policyNumber := "POL-1", customerName := "A"
    customerEmail := "a@x.com", customerPhone := "555"
    vehicleMake := "Toyota", vehicleModel := "Camry", vehicleYear := 2020
    accidentDate := "2024-01-01", accidentDescription := "rear-ended"
    photos := [], videos := [], status := .pending, damageAssessments := []
    totalEstimatedCost := 0, repairShopId := none, createdAt := 0
    updatedAt := 0, aiAnalysisComplete := false, processingTime := none }

/-- A concrete claim already in a terminal status. -/
def approvedClaim : Claim :=
  { fixtureClaim with id := "c2", status := .approved }

/-- A concrete draft with a two-element approval set. -/
def fixtureDraft : InProgressClaim :=
  { id := "s1", formData := {}, photos := [], videos := []
    damageAssessments := [], analysisComplete := false
    approvedAssessments := ⟨["a", "b"], by decide⟩, lastSaved := 0 }

/-- C10: every Store mutation touches only its own table — addClaim and
updateClaim leave the drafts table unchanged, saveInProgressClaim and
deleteInProgressClaim leave the claims table unchanged, and none of them
touches the loading or error fields (getClaim and getInProgressClaim are
pure reads by construction: they return a find result and no state). -/
theorem table_isolation (s : ClaimsState) (cd : ClaimData) (ts : Nat)
    (rand : List Char) (id : String) (p : ClaimPatch) (now : Nat)
    (d : InProgressClaim) (did : String) :
    (addClaim s cd ts rand).inProgressClaims = s.inProgressClaims ∧
    (addClaim s cd ts rand).loading = s.loading ∧
    (addClaim s cd ts rand).error = s.error ∧
    (updateClaim s id p now).inProgressClaims = s.inProgressClaims ∧
    (updateClaim s id p now).loading = s.loading ∧
    (updateClaim s id p now).error = s.error ∧
    (saveInProgressClaim s d).claims = s.claims ∧
    (saveInProgressClaim s d).loading = s.loading ∧
    (saveInProgressClaim s d).error = s.error ∧
    (deleteInProgressClaim s did).claims = s.claims ∧
    (deleteInProgressClaim s did).loading = s.loading ∧
    (deleteInProgressClaim s did).error = s.error :=
  ⟨rfl, rfl, rfl, rfl, rfl, rfl, rfl, rfl, rfl, rfl, rfl, rfl⟩

/-- C8: updating an id absent from the claims table is an atomic no-op:
the whole state is returned unchanged and, the function being total, no
exception reaches the caller and no feedback is produced. -/
theorem updateClaim_missing_noop (s : ClaimsState) (id : String)
    (p : ClaimPatch) (now : Nat) (h : ∀ c ∈ s.claims, c.id ≠ id) :
    updateClaim s id p now = s := by
  have hmap :
      (s.claims.map fun c => if c.id = id then applyPatch c p now else c) =
        s.claims := by
    conv_rhs => rw [← List.map_id s.claims]
    apply List.map_congr_left
    intro c hc
    simp [h c hc]
  simp only [updateClaim, claimsReducer, hmap]

/-- Witness for C8: the documented scenario — a missing id on the empty
table leaves the table empty. -/
theorem updateClaim_missing_noop_witness :
    updateClaim initialState "missing-id" {} 5 = initialState :=
  updateClaim_missing_noop initialState "missing-id" {} 5 (by simp [initialState])

theorem upsert_filter_eq (d : InProgressClaim) :
    ∀ l : List InProgressClaim,
      ((l.filter fun x => x.id ≠ d.id) ++ [d]).filter (fun x => x.id = d.id) =
        [d] := by
  intro l
  induction l with
  | nil => simp
  | cons a l ih => by_cases ha : a.id = d.id <;> simp [ha, ih]

theorem upsert_filter_ne (d : InProgressClaim) :
    ∀ l : List InProgressClaim,
      ((l.filter fun x => x.id ≠ d.id) ++ [d]).filter (fun x => x.id ≠ d.id) =
        l.filter fun x => x.id ≠ d.id := by
  intro l
  induction l with
  | nil => simp
  | cons a l ih => by_cases ha : a.id = d.id <;> simp [ha, ih]

/-- C5: saveInProgressClaim is an upsert by draft id: afterwards the drafts
carrying that id are exactly the one saved payload, every draft under a
different id is untouched, and saving two drafts with the same id in
sequence leaves exactly the second payload under that id. -/
theorem saveInProgress_upsert (s : ClaimsState) (d : InProgressClaim) :
    ((saveInProgressClaim s d).inProgressClaims.filter
        fun x => x.id = d.id) = [d] ∧
    ((saveInProgressClaim s d).inProgressClaims.filter
        fun x => x.id ≠ d.id) =
      (s.inProgressClaims.filter fun x => x.id ≠ d.id) ∧
    ∀ d1 d2 : InProgressClaim, d1.id = d2.id →
      ((saveInProgressClaim (saveInProgressClaim s d1) d2).inProgressClaims.filter
          fun x => x.id = d2.id) = [d2] := by
  refine ⟨?_, ?_, ?_⟩
  · exact upsert_filter_eq d s.inProgressClaims
  · exact upsert_filter_ne d s.inProgressClaims
  · intro d1 d2 _
    simpa [saveInProgressClaim, claimsReducer] using
      upsert_filter_eq d2 (saveInProgressClaim s d1).inProgressClaims

/-- Witness for C5: two concrete same-id drafts saved in sequence leave
exactly the second payload. -/
theorem saveInProgress_upsert_witness :
    ((saveInProgressClaim
        (saveInProgressClaim initialState fixtureDraft)
        { fixtureDraft with lastSaved := 9 }).inProgressClaims.filter
      fun x => x.id = ({ fixtureDraft with lastSaved := 9 } :
        InProgressClaim).id) = [{ fixtureDraft with lastSaved := 9 }] :=
  (saveInProgress_upsert initialState
    { fixtureDraft with lastSaved := 9 }).2.2 fixtureDraft
    { fixtureDraft with lastSaved := 9 } rfl

/-- C1: the Persistence Bridge round-trips every state: after save() and a
load() into a fresh Store, the claims table is reproduced exactly and every
draft's approvedAssessments — encoded as an array on write and rebuilt as a
set on read — has exactly the membership it had in memory (the drafts table
is in fact reproduced exactly as well; the set type keeps every reachable
approval set duplicate-free, so the array decode is lossless). -/
theorem persistence_roundTrip (s : ClaimsState) :
    (loadFromStorage (saveToStorage s) initialState).claims = s.claims ∧
    (loadFromStorage (saveToStorage s) initialState).inProgressClaims =
      s.inProgressClaims ∧
    ∀ d ∈ s.inProgressClaims,
      ∃ d2 ∈ (loadFromStorage (saveToStorage s) initialState).inProgressClaims,
        d2.id = d.id ∧
        ∀ x, x ∈ d2.approvedAssessments.val ↔ x ∈ d.approvedAssessments.val := by
  have hmaps : (s.inProgressClaims.map storeDraft).map unstoreDraft =
      s.inProgressClaims := by
    rw [List.map_map]
    have hcomp : unstoreDraft ∘ storeDraft = id := funext unstoreDraft_storeDraft
    rw [hcomp, List.map_id]
  refine ⟨?_, ?_, ?_⟩
  · simp [loadFromStorage, saveToStorage, claimsReducer]
  · simp [loadFromStorage, saveToStorage, claimsReducer, hmaps]
  · intro d hd
    refine ⟨d, ?_, rfl, fun x => Iff.rfl⟩
    simp [loadFromStorage, saveToStorage, claimsReducer, hmaps, hd]

/-- Witness for C1: the documented scenario — a draft with approval set
containing a and b, saved and loaded into a fresh Store, comes back with
exactly that membership. -/
theorem persistence_roundTrip_witness :
    fixtureDraft ∈
      ({ initialState with inProgressClaims := [fixtureDraft] } :
        ClaimsState).inProgressClaims ∧
    ∃ d2 ∈ (loadFromStorage
        (saveToStorage { initialState with inProgressClaims := [fixtureDraft] })
        initialState).inProgressClaims,
      d2.id = fixtureDraft.id ∧
      ∀ x, x ∈ d2.approvedAssessments.val ↔
        x ∈ fixtureDraft.approvedAssessments.val :=
  ⟨by simp,
    (persistence_roundTrip
      { initialState with inProgressClaims := [fixtureDraft] }).2.2
      fixtureDraft (by simp)⟩

/-- C9: load() at process start never throws (it is a total function whose
failure paths are all caught): an absent claims key leaves the claims table
empty, a corrupt claims cell aborts the whole load leaving the fresh state
untouched, an absent or corrupt drafts cell leaves the drafts table empty,
and a parsable claims cell loads even when the drafts cell is absent or
corrupt. -/
theorem load_error_handling (st : Storage) :
    (st.claimsCell = none → (loadFromStorage st initialState).claims = []) ∧
    (st.claimsCell = some .corrupt →
      loadFromStorage st initialState = initialState) ∧
    (st.draftsCell = none →
      (loadFromStorage st initialState).inProgressClaims = []) ∧
    (st.draftsCell = some .corrupt →
      (loadFromStorage st initialState).inProgressClaims = []) ∧
    (∀ cs, st.claimsCell = some (.parsed cs) →
      (loadFromStorage st initialState).claims = cs) := by
  obtain ⟨cc, dc⟩ := st
  rcases cc with _ | (_ | cs) <;> rcases dc with _ | (_ | ds) <;>
    simp [loadFromStorage, claimsReducer, initialState]

/-- Witness for C9: concrete storage contents — both keys absent, and a
corrupt claims cell — exercise the empty-table and caught-failure paths. -/
theorem load_error_handling_witness :
    (loadFromStorage ⟨none, none⟩ initialState).claims = [] ∧
    loadFromStorage ⟨some .corrupt, some (.parsed [])⟩ initialState =
      initialState ∧
    (loadFromStorage ⟨some (.parsed [fixtureClaim]), some .corrupt⟩
      initialState).claims = [fixtureClaim] :=
  ⟨(load_error_handling ⟨none, none⟩).1 rfl,
    (load_error_handling ⟨some .corrupt, some (.parsed [])⟩).2.1 rfl,
    (load_error_handling ⟨some (.parsed [fixtureClaim]), some .corrupt⟩).2.2.2.2
      [fixtureClaim] rfl⟩

/-- C3: addClaim prepends a claim whose id is the generated non-empty
identifier, whose two timestamps are equal, and whose status is the pending
status the submission payload carries; the table grows by one, every
existing claim survives unmodified, and — since each call draws a fresh
timestamp/random-suffix pair and the id encoding is injective — the new id
collides with no existing generated id. -/
theorem addClaim_spec (s : ClaimsState) (cd : ClaimData) (ts : Nat)
    (rand : List Char) (hstatus : cd.status = Status.pending)
    (hfresh : ∀ c ∈ s.claims, ∃ t r, c.id = genId t r ∧ (t ≠ ts ∨ r ≠ rand)) :
    (addClaim s cd ts rand).claims = mkNewClaim cd ts rand :: s.claims ∧
    (mkNewClaim cd ts rand).id ≠ "" ∧
    (mkNewClaim cd ts rand).createdAt = (mkNewClaim cd ts rand).updatedAt ∧
    (mkNewClaim cd ts rand).status = Status.pending ∧
    (addClaim s cd ts rand).claims.length = s.claims.length + 1 ∧
    (∀ c ∈ s.claims, c ∈ (addClaim s cd ts rand).claims) ∧
    (∀ c ∈ s.claims, c.id ≠ (mkNewClaim cd ts rand).id) := by
  refine ⟨rfl, genId_ne_empty ts rand, rfl, hstatus, ?_, ?_, ?_⟩
  · simp [addClaim, claimsReducer]
  · intro c hc
    simp [addClaim, claimsReducer, hc]
  · intro c hc heq
    obtain ⟨t, r, hid, hne⟩ := hfresh c hc
    have := @genId_inj t ts r rand (by rw [← hid, heq]; rfl)
    rcases hne with h | h
    · exact h this.1
    · exact h this.2

/-- Witness for C3: a concrete pending submission on the empty table. -/
theorem addClaim_spec_witness :
    fixtureData.status = Status.pending ∧
    (addClaim initialState fixtureData 0 []).claims =
      [mkNewClaim fixtureData 0 []] ∧
    (mkNewClaim fixtureData 0 []).id ≠ "" ∧
    (mkNewClaim fixtureData 0 []).createdAt =
      (mkNewClaim fixtureData 0 []).updatedAt ∧
    (mkNewClaim fixtureData 0 []).status = Status.pending := by
  have h := addClaim_spec initialState fixtureData 0 [] rfl
    (by simp [initialState])
  exact ⟨rfl, h.1, h.2.1, h.2.2.1, h.2.2.2.1⟩

/-- C4: updateClaim shallow-merges the patch into the claim carrying the
addressed id and refreshes updatedAt to the current instant, strictly later
than the prior updatedAt whenever the clock advanced; every key of the
patch overwrites the old field, an updatedAt supplied inside the patch is
discarded, and every other claim is left as it was. -/
theorem updateClaim_spec (s : ClaimsState) (C : Claim) (p : ClaimPatch)
    (now : Nat) (hC : C ∈ s.claims) (hlt : C.updatedAt < now) :
    (updateClaim s C.id p now).claims =
      (s.claims.map fun c => if c.id = C.id then applyPatch c p now else c) ∧
    applyPatch C p now ∈ (updateClaim s C.id p now).claims ∧
    (applyPatch C p now).updatedAt = now ∧
    C.updatedAt < (applyPatch C p now).updatedAt ∧
    (∀ t, applyPatch C { p with updatedAt := some t } now =
      applyPatch C p now) ∧
    (applyPatch C p now).id = p.id.getD C.id ∧
    (applyPatch C p now).policyNumber = p.policyNumber.getD C.policyNumber ∧
    (applyPatch C p now).customerName = p.customerName.getD C.customerName ∧
    (applyPatch C p now).customerEmail = p.customerEmail.getD C.customerEmail ∧
    (applyPatch C p now).customerPhone = p.customerPhone.getD C.customerPhone ∧
    (applyPatch C p now).vehicleMake = p.vehicleMake.getD C.vehicleMake ∧
    (applyPatch C p now).vehicleModel = p.vehicleModel.getD C.vehicleModel ∧
    (applyPatch C p now).vehicleYear = p.vehicleYear.getD C.vehicleYear ∧
    (applyPatch C p now).accidentDate = p.accidentDate.getD C.accidentDate ∧
    (applyPatch C p now).accidentDescription =
      p.accidentDescription.getD C.accidentDescription ∧
    (applyPatch C p now).photos = p.photos.getD C.photos ∧
    (applyPatch C p now).videos = p.videos.getD C.videos ∧
    (applyPatch C p now).status = p.status.getD C.status ∧
    (applyPatch C p now).damageAssessments =
      p.damageAssessments.getD C.damageAssessments ∧
    (applyPatch C p now).totalEstimatedCost =
      p.totalEstimatedCost.getD C.totalEstimatedCost ∧
    (applyPatch C p now).repairShopId = p.repairShopId.getD C.repairShopId ∧
    (applyPatch C p now).createdAt = p.createdAt.getD C.createdAt ∧
    (applyPatch C p now).aiAnalysisComplete =
      p.aiAnalysisComplete.getD C.aiAnalysisComplete ∧
    (applyPatch C p now).processingTime =
      p.processingTime.getD C.processingTime ∧
    ∀ c ∈ s.claims, c.id ≠ C.id → c ∈ (updateClaim s C.id p now).claims := by
  refine ⟨rfl, ?_, rfl, hlt, fun t => rfl, rfl, rfl, rfl, rfl, rfl, rfl, rfl,
    rfl, rfl, rfl, rfl, rfl, rfl, rfl, rfl, rfl, rfl, rfl, rfl, ?_⟩
  · have : applyPatch C p now =
        if C.id = C.id then applyPatch C p now else C := by simp
    rw [this]
    exact List.mem_map_of_mem _ hC
  · intro c hc hne
    have : c = if c.id = C.id then applyPatch c p now else c := by simp [hne]
    rw [this]
    exact List.mem_map_of_mem _ hc

/-- Witness for C4: a concrete stored claim patched with a new status, a
smuggled updatedAt that does not survive, at a strictly later instant. -/
theorem updateClaim_spec_witness :
    fixtureClaim ∈
      ({ initialState with claims := [fixtureClaim] } : ClaimsState).claims ∧
    fixtureClaim.updatedAt < 7 ∧
    applyPatch fixtureClaim { status := some .approved, updatedAt := some 99 } 7 ∈
      (updateClaim { initialState with claims := [fixtureClaim] }
        fixtureClaim.id { status := some .approved, updatedAt := some 99 }
        7).claims ∧
    (applyPatch fixtureClaim
      { status := some .approved, updatedAt := some 99 } 7).updatedAt = 7 := by
  have h := updateClaim_spec { initialState with claims := [fixtureClaim] }
    fixtureClaim { status := some .approved, updatedAt := some 99 } 7
    (by simp) (by decide)
  exact ⟨by simp, by decide, h.2.1, h.2.2.1⟩

/-- A 100-dollar assessment, id a1. -/
def cexA1 : DamageAssessment :=
  { id := "a1", type := .scratch, severity := .minor, location := "door"
    estimatedCost := 100, confidence := 85 }

/-- A 200-dollar assessment, id a2. -/
def cexA2 : DamageAssessment :=
  { id := "a2", type := .dent, severity := .moderate, location := "bumper"
    estimatedCost := 200, confidence := 90 }

/-- A 300-dollar assessment, id a3. -/
def cexA3 : DamageAssessment :=
  { id := "a3", type := .glass, severity := .severe, location := "windshield"
    estimatedCost := 300, confidence := 95 }

/-- The approval set holding a1 and a3. -/
def setA13 : StrSet := ⟨["a1", "a3"], by decide⟩

/-- The approval set holding only a1. -/
def setA1 : StrSet := ⟨["a1"], by decide⟩

/-- C2 amended: at submission, totalEstimatedCost equals the cost sum over
exactly the approved assessments in both submission paths; the NewClaim
path persists only the approved assessments (the non-approved ones are
dropped, with no rejected flag), while the EditClaim path retains the full
assessment list in the persisted claim and only the total excludes the
non-approved ones. The documented 100/200/300 scenario with the first and
third approved yields a total of 400. -/
theorem submission_cost_spec (s : ClaimsState) (f : ClaimForm)
    (photos videos : List String) (assessments : List DamageAssessment)
    (approved : StrSet) (ac ia : Bool) (ts : Nat) (rand : List Char)
    (now : Nat) (hv : validateForm f = true) :
    (newClaimHandleSubmit s f photos videos assessments approved ac ia
        ts rand).claims.head? =
      some (mkNewClaim
        (newClaimPayload f photos videos assessments approved ac ia)
        ts rand) ∧
    (newClaimPayload f photos videos assessments approved ac
        ia).totalEstimatedCost =
      ((assessments.filter fun a => a.id ∈ approved.val).map
        fun a => a.estimatedCost).sum ∧
    (newClaimPayload f photos videos assessments approved ac
        ia).damageAssessments =
      (assessments.filter fun a => a.id ∈ approved.val) ∧
    (∀ a ∈ assessments, a.id ∉ approved.val →
      a ∉ (newClaimPayload f photos videos assessments approved ac
        ia).damageAssessments) ∧
    (editClaimPatch f photos videos assessments approved ac
        now).totalEstimatedCost =
      some (((assessments.filter fun a => a.id ∈ approved.val).map
        fun a => a.estimatedCost).sum) ∧
    (editClaimPatch f photos videos assessments approved ac
        now).damageAssessments = some assessments ∧
    (newClaimPayload fixtureForm [] [] [cexA1, cexA2, cexA3] setA13 true
        false).totalEstimatedCost = 400 := by
  refine ⟨?_, ?_, rfl, ?_, ?_, rfl, by decide⟩
  · simp [newClaimHandleSubmit, hv, deleteInProgressClaim, claimsReducer,
      addClaim]
  · simp [newClaimPayload, sumCosts_eq]
  · intro a ha hna
    simp [newClaimPayload, List.mem_filter, hna]
  · simp [editClaimPatch, sumCosts_eq]

/-- Counterexample for C2 as frozen: an EditClaim submission with a1
approved and a2 rejected persists a claim that still contains the
non-approved a2 in its damageAssessments (only the total excludes it), so
the non-approved assessments are not dropped from the persisted claim. -/
theorem editClaim_retains_unapproved_cex :
    (∃ c2 ∈ (editClaimHandleSubmit
        { initialState with claims := [fixtureClaim] } "c1" fixtureForm
        [] [] [cexA1, cexA2] setA1 true 5).claims,
      cexA2 ∈ c2.damageAssessments ∧ c2.totalEstimatedCost = 100) ∧
    cexA2.id ∉ setA1.val := by decide

/-- Witness for C2: the validation hypothesis holds on the concrete form,
and the documented scenario total is 400. -/
theorem submission_cost_spec_witness :
    validateForm fixtureForm = true ∧
    (newClaimPayload fixtureForm [] [] [cexA1, cexA2, cexA3] setA13 true
        false).totalEstimatedCost = 400 :=
  ⟨by decide,
    (submission_cost_spec initialState fixtureForm [] [] [] ⟨[], by decide⟩
      true false 0 [] 0 (by decide)).2.2.2.2.2.2⟩

theorem monoRun_TsInv : ∀ {t : Nat} {s : ClaimsState} {ops : List StoreOp}
    {s1 : ClaimsState}, MonoRun t s ops s1 → TsInv t s → ∃ u, TsInv u s1 := by
  intro t s ops s1 h
  induction h with
  | nil t s => exact fun hinv => ⟨t, hinv⟩
  | add cd ts rand hts h ih =>
      intro hinv
      apply ih
      intro c hc
      simp only [applyOp, addClaim, claimsReducer, List.mem_cons] at hc
      rcases hc with hceq | hmem
      · subst hceq; simp [mkNewClaim]
      · have := hinv c hmem
        omega
  | update id p now hnow hp h ih =>
      intro hinv
      apply ih
      intro c hc
      simp only [applyOp, updateClaim, claimsReducer, List.mem_map] at hc
      obtain ⟨c0, hc0, hceq⟩ := hc
      have hb := hinv c0 hc0
      by_cases hid : c0.id = id
      · rw [if_pos hid] at hceq
        subst hceq
        simp [applyPatch, hp]
        omega
      · rw [if_neg hid] at hceq
        subst hceq
        omega

/-- C6 amended: starting from the empty Store, along every sequence of
addClaim and updateClaim operations under a nondecreasing clock whose
update patches never carry a createdAt key, every claim in the resulting
state satisfies updatedAt ≥ createdAt (creation sets both timestamps to the
same instant and every update refreshes updatedAt to the current, no
earlier, instant). -/
theorem timestamps_invariant {t : Nat} {ops : List StoreOp}
    {s1 : ClaimsState} (h : MonoRun t initialState ops s1) :
    ∀ c ∈ s1.claims, c.createdAt ≤ c.updatedAt := by
  obtain ⟨u, hu⟩ := monoRun_TsInv h (by intro c hc; simp [initialState] at hc)
  exact fun c hc => (hu c hc).1

/-- Counterexample for C6 as frozen: with arbitrary patches allowed, the
Store-reachable state obtained by addClaim at instant 0 followed by an
updateClaim whose patch sets createdAt to 5 at instant 1 holds a claim with
updatedAt 1 strictly below createdAt 5. -/
theorem timestamps_cex :
    ∃ c ∈ (updateClaim (addClaim initialState fixtureData 0 [])
        (genId 0 []) { createdAt := some 5 } 1).claims,
      c.updatedAt < c.createdAt := by
  refine ⟨applyPatch (mkNewClaim fixtureData 0 []) { createdAt := some 5 } 1,
    ?_, ?_⟩
  · simp [updateClaim, addClaim, claimsReducer, mkNewClaim, initialState]
  · norm_num [applyPatch]

/-- Witness for C6: a concrete compliant two-operation run from the empty
Store, whose resulting claim satisfies the invariant. -/
theorem timestamps_invariant_witness :
    applyPatch (mkNewClaim fixtureData 1 []) { status := some Status.approved }
        2 ∈
      (applyOp (applyOp initialState (.add fixtureData 1 []))
        (.update (genId 1 []) { status := some Status.approved } 2)).claims ∧
    (applyPatch (mkNewClaim fixtureData 1 [])
        { status := some Status.approved } 2).createdAt ≤
      (applyPatch (mkNewClaim fixtureData 1 [])
        { status := some Status.approved } 2).updatedAt := by
  have hmem : applyPatch (mkNewClaim fixtureData 1 [])
      { status := some Status.approved } 2 ∈
      (applyOp (applyOp initialState (.add fixtureData 1 []))
        (.update (genId 1 []) { status := some Status.approved } 2)).claims := by
    simp [applyOp, updateClaim, addClaim, claimsReducer, mkNewClaim,
      initialState]
  have hrun : MonoRun 0 initialState
      [StoreOp.add fixtureData 1 [],
        StoreOp.update (genId 1 []) { status := some Status.approved } 2]
      (applyOp (applyOp initialState (.add fixtureData 1 []))
        (.update (genId 1 []) { status := some Status.approved } 2)) :=
    MonoRun.add fixtureData 1 [] (by omega)
      (MonoRun.update (genId 1 []) { status := some Status.approved } 2
        (by omega) rfl (MonoRun.nil 2 _))
  exact ⟨hmem, timestamps_invariant hrun _ hmem⟩

/-- C7 amended: along every run of Store mutations obeying the documented
caller contract — an update patch never sets the status field when the
addressed claim is already approved or rejected — a claim observed in a
terminal status keeps exactly that status in the final state (its position
shifts only by the number of prepended new claims); without that contract
the generic update operation can leave a terminal status. -/
theorem terminal_preserved : ∀ {s : ClaimsState} {ops : List StoreOp}
    {s1 : ClaimsState}, CompliantRun s ops s1 →
    ∃ k : Nat, ∀ (i : Nat) (c : Claim), s.claims[i]? = some c →
      IsTerminal c.status →
      ∃ c2 : Claim, s1.claims[k + i]? = some c2 ∧ c2.status = c.status := by
  intro s ops s1 h
  induction h with
  | nil s =>
      exact ⟨0, fun i c hc _ => ⟨c, by simpa using hc, rfl⟩⟩
  | add cd ts rand h ih =>
      obtain ⟨k, hk⟩ := ih
      refine ⟨k + 1, fun i c hc hterm => ?_⟩
      obtain ⟨c2, h2, h3⟩ := hk (i + 1) c
        (by simpa [applyOp, addClaim, claimsReducer] using hc) hterm
      refine ⟨c2, ?_, h3⟩
      rw [show k + 1 + i = k + (i + 1) by omega]
      exact h2
  | update id p now hcomp h ih =>
      obtain ⟨k, hk⟩ := ih
      refine ⟨k, fun i c hci hterm => ?_⟩
      have hmem := List.mem_iff_getElem?.mpr ⟨i, hci⟩
      by_cases hid : c.id = id
      · have hpnone : p.status = none := hcomp c hmem hid hterm
        have hstat : (applyPatch c p now).status = c.status := by
          show p.status.getD c.status = c.status
          rw [hpnone]
          rfl
        obtain ⟨c2, h2, h3⟩ := hk i (applyPatch c p now)
          (by simp [applyOp, updateClaim, claimsReducer, List.getElem?_map,
            hci, hid])
          (by rw [hstat]; exact hterm)
        exact ⟨c2, h2, by rw [h3, hstat]⟩
      · exact hk i c
          (by simp [applyOp, updateClaim, claimsReducer, List.getElem?_map,
            hci, hid]) hterm
  | saveIP d h ih =>
      obtain ⟨k, hk⟩ := ih
      exact ⟨k, fun i c hci hterm => hk i c
        (by simpa [applyOp, saveInProgressClaim, claimsReducer] using hci)
        hterm⟩
  | deleteIP id h ih =>
      obtain ⟨k, hk⟩ := ih
      exact ⟨k, fun i c hci hterm => hk i c
        (by simpa [applyOp, deleteInProgressClaim, claimsReducer] using hci)
        hterm⟩

/-- Counterexample for C7 as frozen: the claims reducer's generic update
transitions a terminal claim out of its terminal status: the single claim
reaches approved after the first update and pending after the second, all
through Store operations. -/
theorem terminal_cex :
    ((updateClaim (addClaim initialState fixtureData 0 [])
        (genId 0 []) { status := some Status.approved } 1).claims.map
      fun c => c.status) = [Status.approved] ∧
    ((updateClaim (updateClaim (addClaim initialState fixtureData 0 [])
          (genId 0 []) { status := some Status.approved } 1)
        (genId 0 []) { status := some Status.pending } 2).claims.map
      fun c => c.status) = [Status.pending] := by
  constructor
  · simp [updateClaim, addClaim, claimsReducer, mkNewClaim, initialState,
      applyPatch]
  · simp [updateClaim, addClaim, claimsReducer, mkNewClaim, initialState,
      applyPatch]

/-- Witness for C7: a concrete compliant run — an update that does not set
status, applied to a state holding an approved claim — keeps the claim
approved. -/
theorem terminal_preserved_witness :
    ∃ k : Nat, ∀ (i : Nat) (c : Claim),
      ({ initialState with claims := [approvedClaim] } :
        ClaimsState).claims[i]? = some c →
      IsTerminal c.status →
      ∃ c2 : Claim, (applyOp { initialState with claims := [approvedClaim] }
          (.update "c2" { totalEstimatedCost := some 999 } 5)).claims[k + i]? =
        some c2 ∧ c2.status = c.status :=
  terminal_preserved
    (CompliantRun.update "c2" { totalEstimatedCost := some 999 } 5
      (fun _ _ _ _ => rfl)
      (CompliantRun.nil _))
